import Mathlib

/-!
# Verification of `disposable-email-validator`

A shallow embedding of the repository's decision core
(`src/validator.ts`, types from `src/types.ts`) and proofs of the
specified properties.

JavaScript strings are modelled as Lean `String`s (lists of Unicode
scalar values); the JavaScript string primitives the source uses
(`toLowerCase`, `trim`, `lastIndexOf`, `substring`) are modelled below
as `js*` functions with the ECMAScript clamping semantics.  `Set`
objects are modelled as the `List` they were built from — `Set.has`
agrees with `List.contains` on the list of inserted elements, and
membership is all the source ever asks of its sets.  The class
`DisposableEmailValidator` is modelled as a structure holding the three
private fields; its constructor, which can throw, is the `Except`-valued
function `construct`.
-/

/-- Model of ECMAScript whitespace (the set `String.prototype.trim`
strips): tab, LF, VT, FF, CR, space, NBSP, the Unicode `Zs` separators,
the line/paragraph separators and the BOM. -/
def jsWhitespaceChars : List Char :=
  ['\t', '\n', '\x0B', '\x0C', '\r', ' ', '\u00A0', '\u1680',
   '\u2000', '\u2001', '\u2002', '\u2003', '\u2004', '\u2005',
   '\u2006', '\u2007', '\u2008', '\u2009', '\u200A', '\u2028',
   '\u2029', '\u202F', '\u205F', '\u3000', '\uFEFF']

def jsIsWhitespace (c : Char) : Bool :=
  jsWhitespaceChars.contains c

/-- Model of `String.prototype.trim`: remove leading and trailing
whitespace, leaving interior characters untouched. -/
def jsTrim (s : String) : String :=
  ⟨((s.data.dropWhile jsIsWhitespace).reverse.dropWhile jsIsWhitespace).reverse⟩

/-- Model of `String.prototype.toLowerCase` restricted to simple
(character-by-character) case mapping, which is all the spec requires
("no internationalized-email handling beyond simple lowercasing"). -/
def jsToLowerCase (s : String) : String :=
  ⟨s.data.map Char.toLower⟩

/-- Model of `String.prototype.lastIndexOf` for a single-character
search string: the largest index holding `c`, or `-1` when there is
none. -/
def jsLastIndexOf (s : String) (c : Char) : Int :=
  match s.data.reverse.findIdx? (· = c) with
  | some i => ((s.length - 1 - i : Nat) : Int)
  | none => -1

/-- Model of `String.prototype.substring(indexStart, indexEnd)`:
both indices are clamped to `[0, length]` and swapped when out of
order. -/
def jsSubstring (s : String) (a b : Int) : String :=
  let len : Int := (s.length : Int)
  let a' := min (max a 0) len
  let b' := min (max b 0) len
  let lo := (min a' b').toNat
  let hi := (max a' b').toNat
  ⟨(s.data.drop lo).take (hi - lo)⟩

/-- Model of one-argument `String.prototype.substring(indexStart)`,
which takes the suffix from the (clamped) index. -/
def jsSubstringFrom (s : String) (a : Int) : String :=
  jsSubstring s a (s.length : Int)

/-! ## Data model (`src/types.ts`) -/

/-- `Rules` of `src/types.ts`. -/
structure Rules where
  allow_plus_addressing : Bool
  allow_disposable_emails : Bool
deriving Repr, DecidableEq

/-- `ConfigEnv` of `src/types.ts`.  The optional fields are `Option`s:
`none` models an absent property (`undefined`).  `mergeDisposableDomains`
is read by the constructor in `src/validator.ts` (line 77) even though
the interface in `src/types.ts` does not declare it, so it is part of
the record here. -/
structure ConfigEnv where
  rules : Rules
  disposableDomains : Option (List String)
  trustedDomains : Option (List String)
  mergeDisposableDomains : Option Bool
deriving Repr, DecidableEq

/-- `Config` of `src/types.ts`: a JavaScript object keyed by arbitrary
environment-name strings, modelled as an association list with exact
(case-sensitive) key lookup. -/
abbrev Config := List (String × ConfigEnv)

/-- `ValidationResult` of `src/types.ts`: `error` is `none` for the
success shape (`error: null`) and `some msg` for the failure shape. -/
structure ValidationResult where
  success : Bool
  error : Option String
deriving Repr, DecidableEq

/-- Modelled from the spec: the repository imports
`DEFAULT_BLOCKED_DOMAINS` from `src/data/disposable-domains.ts`, a file
that is not among the sources here.  The spec (§6) describes it as a
bundled static list of known disposable-provider domains treated as an
opaque string list, and its scenario 1 (§8) requires
`"10minutemail.com"` to be a member (an engine with no custom list
blocks `user@10minutemail.com`); the repository's test suite also
exercises the member `"boxmach.com"`.  The proofs below depend only on
the list being a fixed list of lowercase domain strings with these
members, never on its full contents. -/
def DEFAULT_BLOCKED_DOMAINS : List String :=
  ["10minutemail.com", "boxmach.com"]

/-- The private state of a `DisposableEmailValidator` instance
(`src/validator.ts` lines 37–39).  The two `Set<string>` fields are
modelled by the lists they are built from (`Set` membership agrees with
list membership); `trustedDomains : null` is `none`. -/
structure DisposableEmailValidator where
  rules : Rules
  disposableDomains : List String
  trustedDomains : Option (List String)
deriving Repr, DecidableEq

/-- The `constructor` of `DisposableEmailValidator`
(`src/validator.ts` lines 66–95).  Throwing is modelled by `Except`:
`new Set(xs.map(d => d.toLowerCase()))` becomes the lowercased list,
`envConfig.mergeDisposableDomains ?? true` becomes `Option.getD true`,
and the truthiness test `envConfig.disposableDomains ?` /
`envConfig.trustedDomains ?` becomes an `Option` match (an empty array
is truthy in JavaScript, and correspondingly `some []` is not `none`). -/
def construct (environment : String) (config : Config) :
    Except String DisposableEmailValidator :=
  match config.lookup environment with
  | none => .error ("Invalid environment: " ++ environment)
  | some envConfig =>
    let domainsToUse : List String :=
      match envConfig.disposableDomains with
      | some custom =>
        if envConfig.mergeDisposableDomains.getD true then
          DEFAULT_BLOCKED_DOMAINS ++ custom
        else
          custom
      | none => DEFAULT_BLOCKED_DOMAINS
    .ok
      { rules := envConfig.rules
        disposableDomains := domainsToUse.map jsToLowerCase
        trustedDomains :=
          envConfig.trustedDomains.map (fun ts => ts.map jsToLowerCase) }

/-- Line 133 of `src/validator.ts`:
`email.toLowerCase().trim()`. -/
def normalizeEmail (email : String) : String :=
  jsTrim (jsToLowerCase email)

/-- Line 134 of `src/validator.ts`:
`emailLower.lastIndexOf("@")`. -/
def atIndexOf (email : String) : Int :=
  jsLastIndexOf (normalizeEmail email) '@'

/-- Line 135 of `src/validator.ts`:
`emailLower.substring(0, atIndex)`. -/
def localPartOf (email : String) : String :=
  jsSubstring (normalizeEmail email) 0 (atIndexOf email)

/-- Line 136 of `src/validator.ts`:
`emailLower.substring(atIndex + 1)`. -/
def domainOf (email : String) : String :=
  jsSubstringFrom (normalizeEmail email) (atIndexOf email + 1)

/-- Model of `String.prototype.includes` for a one-character search
string (all the source uses): containment of the character. -/
def jsIncludesChar (s : String) (c : Char) : Bool :=
  s.data.contains c

/-- Lines 142–149 of `src/validator.ts`: the guarded trusted-set test
(`if (this.trustedDomains) { if (has(emailLower) || has(domain)) ... }`);
`false` means the block falls through. -/
def trustedHit (trustedDomains : Option (List String))
    (emailLower domain : String) : Bool :=
  match trustedDomains with
  | some ts => ts.contains emailLower || ts.contains domain
  | none => false

/-- `validateEmail` (`src/validator.ts` lines 132–166), line by line:
normalize, split at the last `@`, then the format check (an empty
string is falsy, so `!localPart || !domain` is the emptiness test),
the trusted override, the disposable-domain check and the
plus-addressing check, in that order. -/
def validateEmail (v : DisposableEmailValidator) (email : String) :
    ValidationResult :=
  let emailLower := normalizeEmail email
  let localPart := localPartOf email
  let domain := domainOf email
  if localPart = "" ∨ domain = "" then
    { success := false, error := some "Invalid email format" }
  else if trustedHit v.trustedDomains emailLower domain then
    { success := true, error := none }
  else if !v.rules.allow_disposable_emails
      && v.disposableDomains.contains domain then
    { success := false, error := some "Disposable email addresses are not allowed" }
  else if !v.rules.allow_plus_addressing && jsIncludesChar localPart '+' then
    { success := false, error := some "Plus addressing is not allowed" }
  else
    { success := true, error := none }

example : normalizeEmail "  USER@GMAIL.COM  " = "user@gmail.com" := by decide
example : localPartOf "user@domain@com" = "user@domain" := by decide
example : domainOf "user@domain@com" = "com" := by decide
example : localPartOf "no-at-sign" = "" := by decide
example : domainOf "no-at-sign" = "no-at-sign" := by decide
example :
    validateEmail ⟨⟨true, true⟩, [], none⟩ "user@gmail.com" = ⟨true, none⟩ := by
  decide
example :
    validateEmail ⟨⟨true, true⟩, [], none⟩ "invalid" =
      ⟨false, some "Invalid email format"⟩ := by
  decide
example :
    construct "test" [("test", ⟨⟨true, false⟩, some ["x.com"], none, some false⟩)] =
      .ok ⟨⟨true, false⟩, ["x.com"], none⟩ := rfl

/-! ## Helper lemmas -/

/-- When the format check passes, `validateEmail` is the remaining chain
of checks (trusted override, disposable domains, plus addressing). -/
theorem validateEmail_of_wf (v : DisposableEmailValidator) (e : String)
    (hl : localPartOf e ≠ "") (hd : domainOf e ≠ "") :
    validateEmail v e =
      if trustedHit v.trustedDomains (normalizeEmail e) (domainOf e) then
        ⟨true, none⟩
      else if !v.rules.allow_disposable_emails
          && v.disposableDomains.contains (domainOf e) then
        ⟨false, some "Disposable email addresses are not allowed"⟩
      else if !v.rules.allow_plus_addressing && jsIncludesChar (localPartOf e) '+' then
        ⟨false, some "Plus addressing is not allowed"⟩
      else ⟨true, none⟩ := by
  simp only [validateEmail]
  rw [if_neg (not_or.mpr ⟨hl, hd⟩)]

/-- `validateEmail` returns the format failure exactly when the
last-`@` split produced an empty local part or an empty domain. -/
theorem validateEmail_format_iff (v : DisposableEmailValidator) (e : String) :
    validateEmail v e = ⟨false, some "Invalid email format"⟩ ↔
      (localPartOf e = "" ∨ domainOf e = "") := by
  simp only [validateEmail]
  split_ifs with h1 h2 h3 h4 <;> simp [h1]

/-! ## Claim theorems -/

/-- C8: `validateEmail` is a total, deterministic, pure function of the
engine state and the input string: for every engine and every string the
call returns (never throws), the result is one of the four fixed normal
outcomes, repeating the call yields the identical result, and the
engine state is unchanged (the embedding passes the state by value and
`validateEmail` returns only a `ValidationResult`, so the only content
to prove is totality of the outcome enumeration and determinism). -/
theorem validateEmail_total_pure (v : DisposableEmailValidator) (e : String) :
    (validateEmail v e = ⟨true, none⟩ ∨
     validateEmail v e = ⟨false, some "Invalid email format"⟩ ∨
     validateEmail v e = ⟨false, some "Disposable email addresses are not allowed"⟩ ∨
     validateEmail v e = ⟨false, some "Plus addressing is not allowed"⟩) ∧
    validateEmail v e = validateEmail v e := by
  refine ⟨?_, rfl⟩
  simp only [validateEmail]
  split_ifs <;> simp

/-- C2: for an engine holding a trusted set, any well-formed input whose
full normalized form or bare domain is in that set validates
successfully, whatever the rule flags, the disposable set and the local
part are. -/
theorem trusted_override_bypasses_all (r : Rules) (dd : List String)
    (ts : List String) (e : String)
    (hl : localPartOf e ≠ "") (hd : domainOf e ≠ "")
    (ht : (ts.contains (normalizeEmail e) || ts.contains (domainOf e)) = true) :
    validateEmail ⟨r, dd, some ts⟩ e = ⟨true, none⟩ := by
  rw [validateEmail_of_wf _ _ hl hd]
  have h : trustedHit (DisposableEmailValidator.mk r dd (some ts)).trustedDomains
      (normalizeEmail e) (domainOf e) = true := ht
  rw [if_pos h]

/-- C2 witness: an engine blocking both disposable domains and plus
addressing, whose disposable set contains `x.com`, still accepts
`u+a@x.com` because `x.com` is trusted. -/
theorem trusted_override_witness :
    validateEmail ⟨⟨false, false⟩, ["x.com"], some ["x.com"]⟩ "u+a@x.com" =
      ⟨true, none⟩ :=
  trusted_override_bypasses_all ⟨false, false⟩ ["x.com"] ["x.com"] "u+a@x.com"
    (by decide) (by decide) (by decide)

/-- C3: under rules blocking both disposable domains and plus
addressing, a well-formed non-trusted input with a disposable domain
and a `+` in its local part reports the disposable-domain failure and
never the plus-addressing one. -/
theorem disposable_check_precedes_plus (dd : List String)
    (td : Option (List String)) (e : String)
    (hl : localPartOf e ≠ "") (hd : domainOf e ≠ "")
    (ht : trustedHit td (normalizeEmail e) (domainOf e) = false)
    (hdisp : dd.contains (domainOf e) = true)
    (_hplus : jsIncludesChar (localPartOf e) '+' = true) :
    validateEmail ⟨⟨false, false⟩, dd, td⟩ e =
      ⟨false, some "Disposable email addresses are not allowed"⟩ ∧
    validateEmail ⟨⟨false, false⟩, dd, td⟩ e ≠
      ⟨false, some "Plus addressing is not allowed"⟩ := by
  have hw := validateEmail_of_wf ⟨⟨false, false⟩, dd, td⟩ e hl hd
  have hmem : domainOf e ∈ dd := by simpa using hdisp
  rw [hw]
  simp [ht, hmem]

/-- C3 witness: `a+b@x.com` under rules blocking both, with `x.com`
disposable and no trusted set, reports the disposable failure. -/
theorem disposable_precedes_plus_witness :
    validateEmail ⟨⟨false, false⟩, ["x.com"], none⟩ "a+b@x.com" =
      ⟨false, some "Disposable email addresses are not allowed"⟩ ∧
    validateEmail ⟨⟨false, false⟩, ["x.com"], none⟩ "a+b@x.com" ≠
      ⟨false, some "Plus addressing is not allowed"⟩ :=
  disposable_check_precedes_plus ["x.com"] none "a+b@x.com"
    (by decide) (by decide) rfl (by decide) (by decide)

/-- C4: with `allow_plus_addressing` false, a well-formed input that is
neither trusted nor blocked as disposable fails with exactly the
plus-addressing message if and only if its normalized local part
contains `'+'` (a single containment test, so a `'+'` only in the
domain never triggers it); and with `allow_plus_addressing` true no
input ever yields the plus-addressing failure. -/
theorem plus_addressing_check (ad : Bool) (dd : List String)
    (td : Option (List String)) (e : String)
    (hl : localPartOf e ≠ "") (hd : domainOf e ≠ "")
    (ht : trustedHit td (normalizeEmail e) (domainOf e) = false)
    (hdisp : (!ad && dd.contains (domainOf e)) = false) :
    (validateEmail ⟨⟨false, ad⟩, dd, td⟩ e =
        ⟨false, some "Plus addressing is not allowed"⟩ ↔
      jsIncludesChar (localPartOf e) '+' = true) ∧
    ∀ v : DisposableEmailValidator, v.rules.allow_plus_addressing = true →
      validateEmail v e ≠ ⟨false, some "Plus addressing is not allowed"⟩ := by
  constructor
  · have hw := validateEmail_of_wf ⟨⟨false, ad⟩, dd, td⟩ e hl hd
    rw [hw]
    simp only [ht, hdisp, if_false, Bool.false_eq_true]
    cases hc : jsIncludesChar (localPartOf e) '+' <;> simp [hc]
  · intro v hv
    simp only [validateEmail]
    split_ifs with h1 h2 h3 h4 <;> simp_all

/-- C4 witness: `+user@gmail.com` is rejected with the plus-addressing
message when `allow_plus_addressing` is false, and an engine allowing
plus addressing never produces that message for it. -/
theorem plus_addressing_witness :
    validateEmail ⟨⟨false, true⟩, [], none⟩ "+user@gmail.com" =
      ⟨false, some "Plus addressing is not allowed"⟩ ∧
    validateEmail ⟨⟨true, true⟩, [], none⟩ "+user@gmail.com" ≠
      ⟨false, some "Plus addressing is not allowed"⟩ := by
  have h := plus_addressing_check true [] none "+user@gmail.com"
    (by decide) (by decide) rfl (by decide)
  exact ⟨h.1.mpr (by decide), h.2 ⟨⟨true, true⟩, [], none⟩ rfl⟩

/-- `Char.toLower` stated as the `if` it is defined by. -/
theorem charToLower_eq (c : Char) :
    c.toLower = if c.toNat ≥ 65 ∧ c.toNat ≤ 90 then Char.ofNat (c.toNat + 32) else c :=
  rfl

/-- Lowercasing a character twice is the same as lowercasing it once. -/
theorem charToLower_idem (c : Char) : c.toLower.toLower = c.toLower := by
  by_cases h : c.toNat ≥ 65 ∧ c.toNat ≤ 90
  · have hc : c.toLower = Char.ofNat (c.toNat + 32) := by
      rw [charToLower_eq, if_pos h]
    rw [hc]
    obtain ⟨h1, h2⟩ := h
    set n := c.toNat with hn
    interval_cases n <;> decide
  · have hc : c.toLower = c := by rw [charToLower_eq, if_neg h]
    rw [hc, hc]

/-- Lowercasing a string twice is the same as lowercasing it once. -/
theorem jsToLowerCase_idem (s : String) :
    jsToLowerCase (jsToLowerCase s) = jsToLowerCase s := by
  simp only [jsToLowerCase, List.map_map]
  exact congrArg String.mk
    (List.map_congr_left fun c _ => charToLower_idem c)

/-- `validateEmail` reads its input only through `normalizeEmail`. -/
theorem validateEmail_congr_norm (v : DisposableEmailValidator) {e e' : String}
    (hn : normalizeEmail e = normalizeEmail e') :
    validateEmail v e = validateEmail v e' := by
  simp only [validateEmail, localPartOf, domainOf, atIndexOf, hn]

/-- C7: the outcome of `validateEmail` is invariant under any change of
letter-casing of the input (two inputs with the same lowercasing
validate identically; equivalently, validating an input and validating
its lowercased form give the same result). -/
theorem validateEmail_case_insensitive (v : DisposableEmailValidator)
    (e e' : String) (h : jsToLowerCase e = jsToLowerCase e') :
    validateEmail v e = validateEmail v e' ∧
    validateEmail v e = validateEmail v (jsToLowerCase e) := by
  constructor
  · exact validateEmail_congr_norm v (congrArg jsTrim h)
  · exact validateEmail_congr_norm v
      (congrArg jsTrim (jsToLowerCase_idem e).symm)

/-- C7 witness: two casings of the same address validate identically,
and validating an address equals validating its lowercased form. -/
theorem case_insensitive_witness :
    validateEmail ⟨⟨true, false⟩, ["x.com"], none⟩ "User@X.COM" =
      validateEmail ⟨⟨true, false⟩, ["x.com"], none⟩ "uSER@x.com" ∧
    validateEmail ⟨⟨true, false⟩, ["x.com"], none⟩ "User@X.COM" =
      validateEmail ⟨⟨true, false⟩, ["x.com"], none⟩ (jsToLowerCase "User@X.COM") :=
  validateEmail_case_insensitive ⟨⟨true, false⟩, ["x.com"], none⟩
    "User@X.COM" "uSER@x.com" (by decide)

/-- `substring(0, i)` is empty whenever the end index is at most 0
(this covers `lastIndexOf` returning `-1` or `0`). -/
theorem jsSubstring_zero_nonpos (s : String) {i : Int} (h : i ≤ 0) :
    jsSubstring s 0 i = "" := by
  have h0 : (0 : Int) ≤ (s.length : Int) := Int.natCast_nonneg _
  simp [jsSubstring, max_eq_right h, min_eq_left h0]

/-- `substring(i)` is empty whenever the start index is at least the
length. -/
theorem jsSubstringFrom_length_le (s : String) {i : Int}
    (h : (s.length : Int) ≤ i) :
    jsSubstringFrom s i = "" := by
  have h0 : (0 : Int) ≤ (s.length : Int) := Int.natCast_nonneg _
  have hmax : max i 0 = i := max_eq_left (le_trans h0 h)
  simp [jsSubstringFrom, jsSubstring, hmax, min_eq_right h]

/-- Without an `@` in the normalized string, `lastIndexOf` returns
`-1`. -/
theorem atIndexOf_eq_neg_one (e : String)
    (h : '@' ∉ (normalizeEmail e).data) :
    atIndexOf e = -1 := by
  simp only [atIndexOf, jsLastIndexOf]
  have hn : List.findIdx? (fun x => decide (x = '@'))
      (normalizeEmail e).data.reverse = none :=
    List.findIdx?_eq_none_iff.mpr fun x hx =>
      decide_eq_false fun he => h (List.mem_reverse.mp (he ▸ hx))
  rw [hn]

/-- When the last character of `s` is `c`, `lastIndexOf` returns
`length - 1`. -/
theorem jsLastIndexOf_getLast (s : String) (c : Char)
    (h : s.data.getLast? = some c) :
    jsLastIndexOf s c = (s.length : Int) - 1 := by
  have hh : s.data.reverse.head? = some c := by
    rw [← List.getLast?_eq_head?_reverse]; exact h
  obtain ⟨t, ht⟩ : ∃ t, s.data.reverse = c :: t := by
    cases hr : s.data.reverse with
    | nil => rw [hr] at hh; cases hh
    | cons a t =>
      rw [hr] at hh
      simp only [List.head?_cons, Option.some.injEq] at hh
      exact ⟨t, by rw [hh]⟩
  have hlen : s.length = t.length + 1 := by
    have hc := congrArg List.length ht
    simp only [List.length_reverse, List.length_cons] at hc
    exact hc
  simp only [jsLastIndexOf, ht, List.findIdx?_cons, decide_eq_true_eq,
    eq_self_iff_true, if_true]
  show ((s.length - 1 - 0 : Nat) : Int) = (s.length : Int) - 1
  omega

/-- C1 (amended): for every engine and input, the input is normalized
and split at the last `@`; the result is the format failure (with
exactly the message "Invalid email format") if and only if the local
part or the domain of that split is empty — which covers strings with
no `@` at all, strings whose normalized form's last `@` is its first
character, and strings whose normalized form ends with `@`; in
particular `user@domain@com` splits to domain `com` and passes the
format check. -/
theorem format_check_last_at_split (v : DisposableEmailValidator) (e : String) :
    (validateEmail v e = ⟨false, some "Invalid email format"⟩ ↔
      (localPartOf e = "" ∨ domainOf e = "")) ∧
    ('@' ∉ (normalizeEmail e).data →
      validateEmail v e = ⟨false, some "Invalid email format"⟩) ∧
    (atIndexOf e = 0 →
      validateEmail v e = ⟨false, some "Invalid email format"⟩) ∧
    ((normalizeEmail e).data.getLast? = some '@' →
      validateEmail v e = ⟨false, some "Invalid email format"⟩) ∧
    domainOf "user@domain@com" = "com" ∧
    validateEmail v "user@domain@com" ≠ ⟨false, some "Invalid email format"⟩ := by
  refine ⟨validateEmail_format_iff v e, ?_, ?_, ?_, by decide, ?_⟩
  · intro h
    have hi : atIndexOf e = -1 := atIndexOf_eq_neg_one e h
    refine (validateEmail_format_iff v e).mpr (Or.inl ?_)
    simp only [localPartOf, hi]
    exact jsSubstring_zero_nonpos _ (by norm_num)
  · intro h
    refine (validateEmail_format_iff v e).mpr (Or.inl ?_)
    simp only [localPartOf, h]
    exact jsSubstring_zero_nonpos _ le_rfl
  · intro h
    have hi : atIndexOf e = ((normalizeEmail e).length : Int) - 1 :=
      jsLastIndexOf_getLast _ _ h
    refine (validateEmail_format_iff v e).mpr (Or.inr ?_)
    simp only [domainOf, hi, sub_add_cancel]
    exact jsSubstringFrom_length_le _ le_rfl
  · intro hfmt
    rcases (validateEmail_format_iff v "user@domain@com").mp hfmt with h | h <;>
      revert h <;> decide

/-- C1 counterexample: the claim's coverage of "strings whose
normalized form starts with `@`" fails — `"@a@b"` starts with `@`, but
its last-`@` split gives local part `"@a"` and domain `"b"`, so the
format check passes: a reachable engine returns success, not the format
failure. -/
theorem format_check_counterexample :
    (normalizeEmail "@a@b").data.head? = some '@' ∧
    construct "t" [("t", ⟨⟨true, true⟩, some ["x.com"], none, some false⟩)] =
      .ok ⟨⟨true, true⟩, ["x.com"], none⟩ ∧
    validateEmail ⟨⟨true, true⟩, ["x.com"], none⟩ "@a@b" = ⟨true, none⟩ ∧
    validateEmail ⟨⟨true, true⟩, ["x.com"], none⟩ "@a@b" ≠
      ⟨false, some "Invalid email format"⟩ :=
  ⟨by decide, rfl, by decide, by decide⟩

/-- C5 (amended): the disposable set is assembled by exactly three
cases — no custom list: the lowercased built-in list; custom list with
the merge flag true or absent: the lowercased concatenation of built-in
and custom; custom list with the merge flag explicitly false: the
lowercased custom list alone, whose members are then exactly the
lowercased custom entries (so a built-in entry is a member only when it
also occurs in the custom list). -/
theorem disposable_set_assembly (name : String) (cfg : Config)
    (ec : ConfigEnv) (v : DisposableEmailValidator)
    (hlook : cfg.lookup name = some ec)
    (hok : construct name cfg = .ok v) :
    (ec.disposableDomains = none →
      v.disposableDomains = DEFAULT_BLOCKED_DOMAINS.map jsToLowerCase) ∧
    (∀ custom, ec.disposableDomains = some custom →
      ec.mergeDisposableDomains.getD true = true →
      v.disposableDomains =
        (DEFAULT_BLOCKED_DOMAINS ++ custom).map jsToLowerCase) ∧
    (∀ custom, ec.disposableDomains = some custom →
      ec.mergeDisposableDomains = some false →
      v.disposableDomains = custom.map jsToLowerCase ∧
      ∀ d, v.disposableDomains.contains d = true ↔
        d ∈ custom.map jsToLowerCase) := by
  simp only [construct, hlook, Except.ok.injEq] at hok
  subst hok
  refine ⟨?_, ?_, ?_⟩
  · intro h
    simp [h]
  · intro custom h hm
    simp [h, hm]
  · intro custom h hm
    refine ⟨by simp [h, hm], ?_⟩
    intro d
    simp [h, hm]

/-- C5 witness: with custom list `["x.com"]` and the built-in member
`10minutemail.com` in the default list — merged, both domains are
blocked under `allow_disposable_emails: false`; unmerged, only `x.com`
is blocked and `10minutemail.com` passes, and the set is exactly the
lowercased custom list. -/
theorem disposable_set_assembly_witness :
    validateEmail
        ⟨⟨true, false⟩, (DEFAULT_BLOCKED_DOMAINS ++ ["x.com"]).map jsToLowerCase, none⟩
        "user@x.com" =
      ⟨false, some "Disposable email addresses are not allowed"⟩ ∧
    validateEmail
        ⟨⟨true, false⟩, (DEFAULT_BLOCKED_DOMAINS ++ ["x.com"]).map jsToLowerCase, none⟩
        "user@10minutemail.com" =
      ⟨false, some "Disposable email addresses are not allowed"⟩ ∧
    validateEmail ⟨⟨true, false⟩, ["x.com"], none⟩ "user@x.com" =
      ⟨false, some "Disposable email addresses are not allowed"⟩ ∧
    validateEmail ⟨⟨true, false⟩, ["x.com"], none⟩ "user@10minutemail.com" =
      ⟨true, none⟩ ∧
    (DisposableEmailValidator.mk ⟨true, false⟩ ["x.com"] none).disposableDomains =
      (["x.com"] : List String).map jsToLowerCase := by
  refine ⟨by decide, by decide, by decide, by decide, ?_⟩
  exact ((disposable_set_assembly "p"
    [("p", ⟨⟨true, false⟩, some ["x.com"], none, some false⟩)]
    ⟨⟨true, false⟩, some ["x.com"], none, some false⟩
    ⟨⟨true, false⟩, ["x.com"], none⟩ rfl rfl).2.2 ["x.com"] rfl rfl).1

/-- C5 counterexample: "no built-in entry is a member" fails when the
custom list itself contains a built-in entry — with custom list
`["10minutemail.com"]` and merge explicitly false, the built-in entry
`10minutemail.com` is a member of the constructed set. -/
theorem disposable_set_assembly_counterexample :
    "10minutemail.com" ∈ DEFAULT_BLOCKED_DOMAINS ∧
    (construct "p"
        [("p", ⟨⟨true, true⟩, some ["10minutemail.com"], none, some false⟩)]).map
      (fun v => v.disposableDomains.contains "10minutemail.com") = .ok true :=
  ⟨by decide, rfl⟩

/-- C6 (amended): construction succeeds exactly when the configuration
map has an entry for the requested name (case-sensitive, no fallback),
and otherwise fails with exactly the message
`Invalid environment: <name>`; the `Except` result makes no
partially-built engine observable and the map is never mutated. -/
theorem environment_resolution (name : String) (cfg : Config) :
    ((∃ ec, cfg.lookup name = some ec) ↔
      ∃ v, construct name cfg = .ok v) ∧
    (cfg.lookup name = none ↔
      construct name cfg = .error ("Invalid environment: " ++ name)) := by
  unfold construct
  cases h : cfg.lookup name with
  | none => simp
  | some ec => simp

/-- C6 counterexample: the failure message is
`Invalid environment: <name>`, not the claimed
`unknown environment: <name>`. -/
theorem environment_resolution_counterexample :
    construct "production" [] = .error "Invalid environment: production" ∧
    "Invalid environment: production" ≠ "unknown environment: production" :=
  ⟨rfl, by decide⟩

/-- C9: an engine built from a record omitting the trusted list and one
built from the same record with an explicitly empty trusted list are
extensionally equal, and under neither can the trusted override ever
hit (no record can be allow-listed). -/
theorem absent_trusted_equals_empty (r : Rules) (dd : Option (List String))
    (md : Option Bool) (name e x y : String) :
    (construct name [(name, ⟨r, dd, none, md⟩)]).map
        (fun v => validateEmail v e) =
      (construct name [(name, ⟨r, dd, some [], md⟩)]).map
        (fun v => validateEmail v e) ∧
    (∀ v, construct name [(name, ⟨r, dd, none, md⟩)] = .ok v →
      trustedHit v.trustedDomains x y = false) ∧
    (∀ v, construct name [(name, ⟨r, dd, some [], md⟩)] = .ok v →
      trustedHit v.trustedDomains x y = false) := by
  have hl : List.lookup name [(name, (⟨r, dd, none, md⟩ : ConfigEnv))] =
      some ⟨r, dd, none, md⟩ := by simp [List.lookup]
  have hl2 : List.lookup name [(name, (⟨r, dd, some [], md⟩ : ConfigEnv))] =
      some ⟨r, dd, some [], md⟩ := by simp [List.lookup]
  refine ⟨?_, ?_, ?_⟩
  · simp only [construct, hl, hl2, Except.map]
    congr 1
  · intro v hv
    simp only [construct, hl, Except.ok.injEq] at hv
    subst hv
    rfl
  · intro v hv
    simp only [construct, hl2, Except.ok.injEq] at hv
    subst hv
    rfl

/-- C10: interior whitespace never causes rejection — normalization
strips only leading and trailing whitespace, so any input whose
last-`@` split is well-formed passes the format check, and with
permissive rules validates successfully; `" a b@c.com "` normalizes to
`"a b@c.com"`, interior space intact. -/
theorem interior_whitespace_not_rejected (v : DisposableEmailValidator)
    (e : String) (hl : localPartOf e ≠ "") (hd : domainOf e ≠ "") :
    validateEmail v e ≠ ⟨false, some "Invalid email format"⟩ ∧
    (v.rules = ⟨true, true⟩ → validateEmail v e = ⟨true, none⟩) ∧
    normalizeEmail " a b@c.com " = "a b@c.com" := by
  refine ⟨?_, ?_, by decide⟩
  · intro h
    rcases (validateEmail_format_iff v e).mp h with h' | h'
    · exact hl h'
    · exact hd h'
  · intro hr
    rw [validateEmail_of_wf v e hl hd]
    split_ifs with h1 h2 h3 <;> simp_all [hr]

/-- C10 witness: `" a b@c.com "` (interior space in the local part)
validates successfully under permissive rules. -/
theorem interior_whitespace_witness :
    validateEmail ⟨⟨true, true⟩, ["x.com"], none⟩ " a b@c.com " =
      ⟨true, none⟩ :=
  (interior_whitespace_not_rejected ⟨⟨true, true⟩, ["x.com"], none⟩
    " a b@c.com " (by decide) (by decide)).2.1 rfl
